import Mathlib

/-!
Verification of the useEffectEvent demo repository.

Part 1 embeds the stable-callback primitive (the `useEffectEvent` polyfill):
one mutable cell (`useRef`) holding the most recently supplied function, and
one handle (`useCallback` with empty dependencies) whose identity is fixed at
first construction and whose invocation dereferences the cell at call time.

Part 2 embeds the demo shell's log sink: `handleLog` appends a timestamped
message to the buffer unless it repeats the immediately preceding entry,
trimming the buffer to the last 20 old entries plus the new one, and
`uniqueLogs` keeps the first occurrence of each distinct entry and displays
the last 15 of the result.

Part 3 embeds the quiz component: team data persisted as a whole-map
snapshot under the key thinkTankTeamData, the award-point handler with its
guards, and the score computation.
-/

namespace EffectEvent

/-- State of one logical instance of the hook: the `useRef` cell
(`ref.current`, always holding the function supplied by the most recent
construction) and the identity of the memoized `useCallback` closure.
Functions are `α → Except ε β` so that thrown errors are visible. -/
structure Inst (α ε β : Type) where
  refCurrent : α → Except ε β
  handleId : Nat

/-- One execution of the hook body for a logical instance.
`prev = none` is the first construction (mount): `useRef(fn)` creates the
cell initialized to `fn`, and `useCallback(..., [])` memoizes a fresh
closure (identified by `freshId`). On a reconstruction (`prev = some inst`)
the cell is kept and `ref.current = fn` overwrites it unconditionally, and
the memoized closure is returned unchanged. -/
def useEffectEvent {α ε β : Type} (prev : Option (Inst α ε β)) (freshId : Nat)
    (fn : α → Except ε β) : Inst α ε β :=
  match prev with
  | none => Inst.mk fn freshId
  | some inst => Inst.mk fn inst.handleId

/-- Invoking the handle: the closure body is
`(...args) => ref.current(...args)`, so it reads the cell of the instance
state as it is at invocation time and applies it to the arguments. -/
def invokeHandle {α ε β : Type} (inst : Inst α ε β) (args : α) : Except ε β :=
  inst.refCurrent args

/-- A whole sequence of constructions for one logical instance, starting
from the unmounted state. The fresh-id argument is irrelevant after the
first construction. -/
def constructSeq {α ε β : Type} (fns : List (α → Except ε β)) :
    Option (Inst α ε β) :=
  fns.foldl (fun acc fn => some (useEffectEvent acc 0 fn)) none

/-- A store of independent logical instances, indexed by position.
Reconstructing instance `j` touches only slot `j`. -/
def constructAt {α ε β : Type} (store : List (Option (Inst α ε β)))
    (j freshId : Nat) (fn : α → Except ε β) : List (Option (Inst α ε β)) :=
  store.set j (some (useEffectEvent (store.getD j none) freshId fn))

/-- Invoke the handle of instance `k` of a store (`none` when the instance
was never constructed). -/
def invokeAt {α ε β : Type} (store : List (Option (Inst α ε β))) (k : Nat)
    (args : α) : Option (Except ε β) :=
  (store.getD k none).map (fun inst => invokeHandle inst args)

end EffectEvent

namespace LogSink

/-- The `setLogs` updater inside `handleLog`: skip the append when the new
entry equals the last retained entry, otherwise keep `prev.slice(-20)`
(the last 20 entries) and append the new entry. -/
def appendLog (prev : List String) (logWithTime : String) : List String :=
  if 0 < prev.length ∧ prev.getLast? = some logWithTime then prev
  else prev.drop (prev.length - 20) ++ [logWithTime]

/-- `handleLog`: prepend the timestamp to the message, then apply the
updater. -/
def handleLog (timestamp message : String) (prev : List String) : List String :=
  appendLog prev ("[" ++ timestamp ++ "] " ++ message)

/-- The filter inside `uniqueLogs`: keep an entry exactly when no earlier
entry is equal to it (`findIndex(l => l === log) === index`), accumulating
the entries already seen. -/
def keepFirst (seen : List String) : List String → List String
  | [] => []
  | x :: xs => if x ∈ seen then keepFirst seen xs else x :: keepFirst (x :: seen) xs

/-- `uniqueLogs`: deduplicate keeping first occurrences, then
`.slice(-15)`, the last 15 entries of the deduplicated list. -/
def uniqueLogs (logs : List String) : List String :=
  let deduped := keepFirst [] logs
  deduped.drop (deduped.length - 15)

end LogSink

namespace Quiz

/-- A team member record, fields as initialized in `ThinkTank`. -/
structure TeamMember where
  name : String
  totalBonus : Int
  questionsAnswered : Int
  correctAnswers : Int
  lastActivity : String
deriving DecidableEq

/-- The team-score map (`Record<string, TeamMember>`), as an ordered
key-value list, keys being member names. -/
abbrev TeamMap := List (String × TeamMember)

/-- JavaScript object read `map[key]`: the value at the first matching key,
or `none`. -/
def lookupMap (t : TeamMap) (k : String) : Option TeamMember :=
  (t.find? (fun p => p.1 == k)).map (fun p => p.2)

/-- Replacing the value stored at a present key (the shallow copy plus
in-place mutation of the looked-up record in `handleAwardPoint`). -/
def writeMember (t : TeamMap) (k : String) (v : TeamMember) : TeamMap :=
  t.map (fun p => if p.1 == k then (k, v) else p)

/-- The awarded-for-question map (`Record<number, string>`). -/
abbrev AwardMap := List (Nat × String)

/-- Read `awardedForQuestion[q]`. -/
def lookupAward (a : AwardMap) (q : Nat) : Option String :=
  (a.find? (fun p => p.1 == q)).map (fun p => p.2)

/-- The spread `\x7b...awardedForQuestion, [q]: m\x7d`: replace the entry at
`q` when present, otherwise add it. -/
def writeAward (a : AwardMap) (q : Nat) (m : String) : AwardMap :=
  if (a.find? (fun p => p.1 == q)).isSome then
    a.map (fun p => if p.1 == q then (q, m) else p)
  else a ++ [(q, m)]

/-- JavaScript truthiness of a possibly-missing string: `undefined` and the
empty string are falsy. -/
def jsTruthy : Option String → Bool
  | none => false
  | some s => s != ""

/-- The team map built when nothing is saved: every member of
`TEAM_MEMBERS` mapped to an all-zero record with `lastActivity = "Never"`.
`TEAM_MEMBERS` itself lives in a data module not present here, so the
member list is a parameter. -/
def initialTeamData (members : List String) : TeamMap :=
  members.map (fun n => (n, TeamMember.mk n 0 0 0 "Never"))

/-- An operation against the persisted key-value store. A write carries the
whole map that is serialized (`JSON.stringify(newTeamData)`); the stored
value is modeled pre-serialization. -/
inductive StorageOp where
  | get (key : String)
  | set (key : String) (value : TeamMap)
deriving DecidableEq

/-- The `ThinkTank` component state relevant to the claims. -/
structure QuizState where
  currentQuestion : Nat
  selectedAnswers : List (Option Nat)
  showResults : Bool
  showExplanation : Bool
  awardMember : String
  awardedForQuestion : AwardMap
  teamData : TeamMap
deriving DecidableEq

/-- Mounting `ThinkTank`: the `useState` initializer reads the persisted
store once under the fixed key, parsing the saved map when present and
building the initial team data otherwise. Returns the initial state and
the storage operations performed. -/
def mountThinkTank (saved : Option TeamMap) (members : List String) :
    QuizState × List StorageOp :=
  (QuizState.mk 0 [] false false "" [] (saved.getD (initialTeamData members)),
   [StorageOp.get "thinkTankTeamData"])

/-- Writing `newAnswers[currentQuestion] = answerIndex` on a copy of the
answer array: missing slots up to the index become holes (`none`). -/
def setAnswer (l : List (Option Nat)) (i : Nat) (v : Nat) : List (Option Nat) :=
  (l ++ List.replicate (i + 1 - l.length) none).set i (some v)

/-- `handleAnswer`: record the answer for the current question and show the
explanation. No storage access. -/
def handleAnswer (answerIndex : Nat) (s : QuizState) : QuizState × List StorageOp :=
  (QuizState.mk s.currentQuestion (setAnswer s.selectedAnswers s.currentQuestion answerIndex)
    s.showResults true s.awardMember s.awardedForQuestion s.teamData, [])

/-- `handleAwardPoint`: return unchanged when the current question was
already awarded (truthy entry), when no member is selected (empty string is
falsy), or when the selected member is absent from the team map; otherwise
increment the member's three counters by one, stamp `lastActivity`, record
the award, and rewrite the whole team map to the persisted store. -/
def handleAwardPoint (now : String) (s : QuizState) : QuizState × List StorageOp :=
  let questionIndex := s.currentQuestion
  if jsTruthy (lookupAward s.awardedForQuestion questionIndex) then (s, [])
  else if s.awardMember == "" then (s, [])
  else
    match lookupMap s.teamData s.awardMember with
    | none => (s, [])
    | some member =>
      let updated := TeamMember.mk member.name (member.totalBonus + 1)
        (member.questionsAnswered + 1) (member.correctAnswers + 1) now
      let newTeamData := writeMember s.teamData s.awardMember updated
      let newAwarded := writeAward s.awardedForQuestion questionIndex s.awardMember
      (QuizState.mk s.currentQuestion s.selectedAnswers s.showResults s.showExplanation
        s.awardMember newAwarded newTeamData,
       [StorageOp.set "thinkTankTeamData" newTeamData])

/-- `nextQuestion`: hide the explanation, then advance or show results. -/
def nextQuestion (numQuestions : Nat) (s : QuizState) : QuizState × List StorageOp :=
  if s.currentQuestion < numQuestions - 1 then
    (QuizState.mk (s.currentQuestion + 1) s.selectedAnswers s.showResults false
      s.awardMember s.awardedForQuestion s.teamData, [])
  else
    (QuizState.mk s.currentQuestion s.selectedAnswers true false
      s.awardMember s.awardedForQuestion s.teamData, [])

/-- `resetQuiz`: reset the quiz-local state, keeping the team data and
touching no storage. -/
def resetQuiz (s : QuizState) : QuizState × List StorageOp :=
  (QuizState.mk 0 [] false false "" [] s.teamData, [])

/-- `resetAllTeamData`: when the user confirms, replace the team map with
the initial data and rewrite the whole map to the persisted store. -/
def resetAllTeamData (confirmed : Bool) (members : List String) (s : QuizState) :
    QuizState × List StorageOp :=
  if confirmed then
    (QuizState.mk s.currentQuestion s.selectedAnswers s.showResults s.showExplanation
      s.awardMember s.awardedForQuestion (initialTeamData members),
     [StorageOp.set "thinkTankTeamData" (initialTeamData members)])
  else (s, [])

/-- The select control: choose (or clear) the member to award. -/
def selectMember (m : String) (s : QuizState) : QuizState × List StorageOp :=
  (QuizState.mk s.currentQuestion s.selectedAnswers s.showResults s.showExplanation
    m s.awardedForQuestion s.teamData, [])

/-- A user-visible operation on the mounted component. -/
inductive QuizOp where
  | answer (answerIndex : Nat)
  | choose (m : String)
  | award (now : String)
  | next
  | restart
  | resetAll (confirmed : Bool)

/-- Dispatch one operation. -/
def stepQuiz (numQuestions : Nat) (members : List String) :
    QuizOp → QuizState → QuizState × List StorageOp
  | QuizOp.answer i, s => handleAnswer i s
  | QuizOp.choose m, s => selectMember m s
  | QuizOp.award now, s => handleAwardPoint now s
  | QuizOp.next, s => nextQuestion numQuestions s
  | QuizOp.restart, s => resetQuiz s
  | QuizOp.resetAll c, s => resetAllTeamData c members s

/-- Run a whole session: mount, then apply the operations in order,
accumulating every storage operation performed. -/
def runQuiz (saved : Option TeamMap) (numQuestions : Nat) (members : List String)
    (ops : List QuizOp) : QuizState × List StorageOp :=
  ops.foldl (fun acc op =>
    let r := stepQuiz numQuestions members op acc.1
    (r.1, acc.2 ++ r.2)) (mountThinkTank saved members)

/-- A quiz question, reduced to the fields the score computation reads:
its id and the index of the correct option. The prose fields (question
text, options, explanation, difficulty, type, code sample) play no role in
any computation. -/
structure QuizQuestion where
  id : Nat
  correctAnswer : Nat
deriving DecidableEq

/-- The eight questions of `quizQuestions.ts`, ids 1 to 8, with their
`correctAnswer` indices. -/
def quizQuestions : List QuizQuestion :=
  [QuizQuestion.mk 1 1, QuizQuestion.mk 2 1, QuizQuestion.mk 3 1,
   QuizQuestion.mk 4 3, QuizQuestion.mk 5 1, QuizQuestion.mk 6 2,
   QuizQuestion.mk 7 1, QuizQuestion.mk 8 2]

/-- The reduce inside `calculateScore` over an arbitrary question list:
holes and unanswered slots (`none`) never match, an answered slot scores 1
exactly when it equals that question's correct answer. Indexing pairs each
answer with the question at the same position. -/
def calculateScoreOn (selectedAnswers : List (Option Nat))
    (qs : List QuizQuestion) : Nat :=
  ((selectedAnswers.zip qs).map
    (fun p => if p.1 = some p.2.correctAnswer then 1 else 0)).sum

/-- `calculateScore`: the reduce against the quiz question data. -/
def calculateScore (selectedAnswers : List (Option Nat)) : Nat :=
  calculateScoreOn selectedAnswers quizQuestions

/-- A concrete state with one team member selected and nothing awarded. -/
def demoAwardState : QuizState :=
  QuizState.mk 0 [] false false "x" [] (initialTeamData ["x"])

end Quiz

namespace EffectEvent

/-- Concrete function returning the string A, as in the spec's freshness
example. -/
def fnRetA : Unit → Except String String := fun _ => Except.ok "A"

/-- Concrete function returning the string B. -/
def fnRetB : Unit → Except String String := fun _ => Except.ok "B"

/-- Concrete adding function, as in the spec's passthrough example. -/
def addFn : Nat × Nat → Except String Nat := fun p => Except.ok (p.1 + p.2)

/-- Concrete function that throws the error E. -/
def throwFn : Nat × Nat → Except String Nat := fun _ => Except.error "E"

/-- A concrete store of two constructed instances. -/
def demoStore : List (Option (Inst Unit String String)) :=
  [some (useEffectEvent none 0 fnRetA), some (useEffectEvent none 1 fnRetB)]

end EffectEvent

open EffectEvent LogSink Quiz

/-- C1: freshness and synchronous ordering — after constructing with `fnA`
and then reconstructing with `fnB`, invoking the handle executes `fnB`,
never `fnA`; the cell update performed by a construction is visible in the
state it returns (it completes synchronously during the call), so every
invocation after a reconstruction observes that reconstruction's function;
concretely, after swapping a function returning A for one returning B the
handle returns B. -/
theorem freshness_after_reconstruction {α ε β : Type}
    (prev : Option (Inst α ε β)) (i j : Nat)
    (fnA fnB : α → Except ε β) (args : α) :
    invokeHandle (useEffectEvent (some (useEffectEvent prev i fnA)) j fnB) args = fnB args
    ∧ (∀ (p : Option (Inst α ε β)) (k : Nat) (fn : α → Except ε β),
        (useEffectEvent p k fn).refCurrent = fn)
    ∧ invokeHandle (useEffectEvent (some (useEffectEvent none 0 fnRetA)) 0 fnRetB) ()
        = Except.ok "B" := by
  refine ⟨rfl, ?_, rfl⟩
  intro p k fn
  cases p <;> rfl

/-- C2: identity stability — constructing with `fnA`, `fnB`, `fnC` in turn
returns a handle whose identity is the one allocated by the first
construction, and in general every reconstruction returns the existing
handle unchanged; a new handle identity appears only on the first
construction. -/
theorem handle_identity_stable {α ε β : Type} (i0 i1 i2 : Nat)
    (fnA fnB fnC : α → Except ε β) :
    (useEffectEvent (some (useEffectEvent (some (useEffectEvent
        (none : Option (Inst α ε β)) i0 fnA)) i1 fnB)) i2 fnC).handleId = i0
    ∧ (useEffectEvent (some (useEffectEvent
        (none : Option (Inst α ε β)) i0 fnA)) i1 fnB).handleId = i0
    ∧ (useEffectEvent (none : Option (Inst α ε β)) i0 fnA).handleId = i0
    ∧ ∀ (inst : Inst α ε β) (j : Nat) (fn : α → Except ε β),
        (useEffectEvent (some inst) j fn).handleId = inst.handleId :=
  ⟨rfl, rfl, rfl, fun _ _ _ => rfl⟩

/-- C3: argument, result and error passthrough — invoking the handle right
after a construction that stored `fn` returns exactly `fn args`, including
the error case, since the result of `fn` (value or error) is returned
unchanged; concretely, adding 2 and 3 through the handle gives 5, and a
stored function that throws E makes the handle propagate the same error E. -/
theorem handle_passthrough {α ε β : Type} (prev : Option (Inst α ε β))
    (i : Nat) (fn : α → Except ε β) (args : α) :
    invokeHandle (useEffectEvent prev i fn) args = fn args
    ∧ invokeHandle (useEffectEvent none 0 addFn) (2, 3) = Except.ok 5
    ∧ invokeHandle (useEffectEvent none 0 throwFn) (2, 3) = Except.error "E" := by
  refine ⟨?_, rfl, rfl⟩
  cases prev <;> rfl

/-- C4: multi-instance isolation — reconstructing instance `j` of a store
of independent instances leaves every other slot `k` untouched, so the
function that instance `k`'s handle resolves to when invoked is unchanged. -/
theorem instance_isolation {α ε β : Type} (store : List (Option (Inst α ε β)))
    (j k freshId : Nat) (fn : α → Except ε β) (args : α) (h : j ≠ k) :
    (constructAt store j freshId fn).getD k none = store.getD k none
    ∧ invokeAt (constructAt store j freshId fn) k args = invokeAt store k args := by
  have hget : (constructAt store j freshId fn).getD k none = store.getD k none := by
    simp only [constructAt, List.getD_eq_getElem?_getD]
    rw [List.getElem?_set_ne h]
  exact ⟨hget, by simp only [invokeAt, hget]⟩

/-- C4 witness: in a concrete two-instance store, reconstructing instance 0
with the function returning B leaves instance 1 resolving as before, to B's
slot value. -/
theorem instance_isolation_witness :
    invokeAt (constructAt demoStore 0 2 fnRetB) 1 () = some (Except.ok "B") :=
  (instance_isolation demoStore 0 1 2 fnRetB () (by decide)).2.trans rfl

/-- C5: cell non-emptiness — after any nonempty sequence of constructions
the instance exists, its cell holds exactly the most recently supplied
function, and every invocation of the handle resolves to that last-known
function; no invocation can find an empty cell. -/
theorem cell_holds_last_fn {α ε β : Type} (fns : List (α → Except ε β))
    (h : fns ≠ []) :
    ∃ inst : Inst α ε β, constructSeq fns = some inst
      ∧ inst.refCurrent = fns.getLast h
      ∧ ∀ args, invokeHandle inst args = fns.getLast h args := by
  rcases List.eq_nil_or_concat fns with rfl | ⟨l, fn, rfl⟩
  · exact absurd rfl h
  · refine ⟨useEffectEvent (constructSeq l) 0 fn, ?_, ?_, ?_⟩
    · simp [constructSeq, List.foldl_concat]
    · have hlast : (l.concat fn).getLast h = fn := List.getLast_concat' l
      rw [hlast]
      cases constructSeq l <;> rfl
    · intro args
      have hlast : (l.concat fn).getLast h = fn := List.getLast_concat' l
      rw [hlast]
      cases constructSeq l <;> rfl

/-- C5 witness: after constructing with the A-returning and then the
B-returning function, the instance exists and invoking it yields B. -/
theorem cell_holds_last_fn_witness :
    (constructSeq [fnRetA, fnRetB]).map (fun inst => invokeHandle inst ())
      = some (Except.ok "B") := by
  obtain ⟨inst, h1, _, h3⟩ :=
    cell_holds_last_fn [fnRetA, fnRetB] (List.cons_ne_nil _ _)
  rw [h1, Option.map_some', h3]
  rfl

/-- C6: no-op reconstruction idempotence — reconstructing twice in a row
with the same function yields exactly the state (handle identity and cell)
of a single construction, while the cell write still happens
unconditionally on every call: the resulting cell is the supplied function
regardless of what was stored before, with no equality check skipping the
overwrite. -/
theorem reconstruct_idempotent {α ε β : Type} (prev : Option (Inst α ε β))
    (i j : Nat) (fnA : α → Except ε β) :
    useEffectEvent (some (useEffectEvent prev i fnA)) j fnA = useEffectEvent prev i fnA
    ∧ ∀ (p : Option (Inst α ε β)) (k : Nat) (fn : α → Except ε β),
        (useEffectEvent p k fn).refCurrent = fn := by
  refine ⟨?_, ?_⟩
  · cases prev <;> rfl
  · intro p k fn
    cases p <;> rfl

theorem keepFirst_sublist (seen : List String) (l : List String) :
    List.Sublist (keepFirst seen l) l := by
  induction l generalizing seen with
  | nil => exact List.Sublist.refl []
  | cons x xs ih =>
    by_cases hx : x ∈ seen
    · simp only [keepFirst, if_pos hx]
      exact (ih seen).cons x
    · simp only [keepFirst, if_neg hx]
      exact (ih (x :: seen)).cons₂ x

theorem keepFirst_not_mem (seen : List String) (l : List String) (a : String)
    (ha : a ∈ seen) : a ∉ keepFirst seen l := by
  induction l generalizing seen with
  | nil => simp [keepFirst]
  | cons x xs ih =>
    by_cases hx : x ∈ seen
    · simp only [keepFirst, if_pos hx]
      exact ih seen ha
    · simp only [keepFirst, if_neg hx, List.mem_cons, not_or]
      refine ⟨?_, ih (x :: seen) (List.mem_cons_of_mem x ha)⟩
      intro e
      exact hx (e ▸ ha)

theorem keepFirst_nodup (seen : List String) (l : List String) :
    (keepFirst seen l).Nodup := by
  induction l generalizing seen with
  | nil => simp [keepFirst]
  | cons x xs ih =>
    by_cases hx : x ∈ seen
    · simp only [keepFirst, if_pos hx]
      exact ih seen
    · simp only [keepFirst, if_neg hx]
      exact List.nodup_cons.mpr
        ⟨keepFirst_not_mem (x :: seen) xs x (List.mem_cons_self x seen), ih (x :: seen)⟩

/-- C7 counterexample: appending 21 distinct messages leaves a retained
buffer of 21 entries, more than the claimed cap of 20; and the displayed
list drops a later duplicate that is not adjacent to its first occurrence
(the buffer a, b, a is reachable, yet the display is a, b), so
deduplication removes entries other than an immediately-repeated last one. -/
theorem log_sink_cap_counterexample :
    ¬ (((List.range 21).map Nat.repr).foldl appendLog []).length ≤ 20
    ∧ (["a", "b", "a"] : List String).foldl appendLog [] = ["a", "b", "a"]
    ∧ uniqueLogs ["a", "b", "a"] = ["a", "b"] := by
  refine ⟨?_, ?_, ?_⟩ <;> decide

/-- C7 amended: the retained buffer holds at most 21 entries (each append
keeps the last 20 retained entries plus the new one); an append is skipped
exactly when the new entry equals the immediately preceding last entry;
the displayed list keeps the first occurrence of each distinct retained
entry, dropping later duplicates wherever they occur, and shows at most
the last 15 entries of that deduplicated list. -/
theorem log_sink_bounds (prev : List String) (msg : String) (logs : List String)
    (h : prev.length ≤ 21) :
    (appendLog prev msg).length ≤ 21
    ∧ (prev.getLast? = some msg → appendLog prev msg = prev)
    ∧ (prev.getLast? ≠ some msg →
        appendLog prev msg = prev.drop (prev.length - 20) ++ [msg])
    ∧ (uniqueLogs logs).length ≤ 15
    ∧ (uniqueLogs logs).Nodup
    ∧ List.Sublist (uniqueLogs logs) logs := by
  refine ⟨?_, ?_, ?_, ?_, ?_, ?_⟩
  · unfold appendLog
    split
    · exact h
    · simp only [List.length_append, List.length_drop, List.length_singleton]
      omega
  · intro hlast
    have hne : prev ≠ [] := by
      intro e
      rw [e] at hlast
      exact Option.noConfusion hlast
    unfold appendLog
    rw [if_pos ⟨List.length_pos.mpr hne, hlast⟩]
  · intro hlast
    unfold appendLog
    rw [if_neg (fun hc => hlast hc.2)]
  · unfold uniqueLogs
    simp only [List.length_drop]
    omega
  · exact List.Nodup.sublist (List.drop_sublist _ _) (keepFirst_nodup [] logs)
  · exact (List.drop_sublist _ _).trans (keepFirst_sublist [] logs)

/-- C7 witness: a repeated last entry is skipped, and the display of the
buffer a, b, a has at most 15 entries. -/
theorem log_sink_bounds_witness :
    appendLog ["a"] "a" = ["a"] ∧ (uniqueLogs ["a", "b", "a"]).length ≤ 15 := by
  have hth := log_sink_bounds ["a"] "a" ["a", "b", "a"] (by decide)
  exact ⟨hth.2.1 (by decide), hth.2.2.2.1⟩

theorem stepQuiz_trace (n : Nat) (members : List String) (op : QuizOp) (s : QuizState) :
    (stepQuiz n members op s).2 = []
    ∨ (stepQuiz n members op s).2
        = [StorageOp.set "thinkTankTeamData" (stepQuiz n members op s).1.teamData] := by
  cases op with
  | answer i => exact Or.inl rfl
  | choose m => exact Or.inl rfl
  | award now =>
    unfold stepQuiz handleAwardPoint
    dsimp only
    split
    · exact Or.inl rfl
    · split
      · exact Or.inl rfl
      · split
        · exact Or.inl rfl
        · exact Or.inr rfl
  | next =>
    unfold stepQuiz nextQuestion
    dsimp only
    split
    · exact Or.inl rfl
    · exact Or.inl rfl
  | restart => exact Or.inl rfl
  | resetAll c =>
    unfold stepQuiz resetAllTeamData
    dsimp only
    split
    · exact Or.inr rfl
    · exact Or.inl rfl

theorem runQuiz_trace_aux (n : Nat) (members : List String) (ops : List QuizOp)
    (s0 : QuizState) (t0 : List StorageOp) :
    ∃ extra, (ops.foldl (fun acc op =>
        let r := stepQuiz n members op acc.1
        (r.1, acc.2 ++ r.2)) (s0, t0)).2 = t0 ++ extra
      ∧ ∀ o ∈ extra, ∃ m, o = StorageOp.set "thinkTankTeamData" m := by
  induction ops generalizing s0 t0 with
  | nil =>
    refine ⟨[], by simp, by simp⟩
  | cons op ops ih =>
    obtain ⟨extra, he, hall⟩ :=
      ih (stepQuiz n members op s0).1 (t0 ++ (stepQuiz n members op s0).2)
    refine ⟨(stepQuiz n members op s0).2 ++ extra, ?_, ?_⟩
    · simpa [List.append_assoc] using he
    · intro o ho
      rcases List.mem_append.mp ho with ho | ho
      · rcases stepQuiz_trace n members op s0 with ht | ht
        · rw [ht] at ho
          exact absurd ho (List.not_mem_nil o)
        · rw [ht] at ho
          rcases List.mem_singleton.mp ho with rfl
          exact ⟨_, rfl⟩
      · exact hall o ho

/-- C8: whole-map snapshot persistence — mounting performs exactly one
read of the persisted store, under the fixed key thinkTankTeamData; every
storage operation performed by any subsequent user operation is a write of
the complete team map of the resulting state to that same key (no
incremental or per-member update); over any whole session the storage
trace is that single startup read followed only by such whole-map writes. -/
theorem persistence_whole_map (saved : Option TeamMap) (n : Nat)
    (members : List String) (ops : List QuizOp) :
    (mountThinkTank saved members).2 = [StorageOp.get "thinkTankTeamData"]
    ∧ (∀ (op : QuizOp) (s : QuizState) (o : StorageOp),
        o ∈ (stepQuiz n members op s).2 →
        o = StorageOp.set "thinkTankTeamData" (stepQuiz n members op s).1.teamData)
    ∧ (runQuiz saved n members ops).2.head? = some (StorageOp.get "thinkTankTeamData")
    ∧ ∀ o ∈ (runQuiz saved n members ops).2.tail,
        ∃ m, o = StorageOp.set "thinkTankTeamData" m := by
  obtain ⟨extra, he, hall⟩ := runQuiz_trace_aux n members ops
    (mountThinkTank saved members).1 [StorageOp.get "thinkTankTeamData"]
  have hrun : (runQuiz saved n members ops).2
      = StorageOp.get "thinkTankTeamData" :: extra := by
    rw [runQuiz]
    exact he
  refine ⟨rfl, ?_, ?_, ?_⟩
  · intro op s o ho
    rcases stepQuiz_trace n members op s with ht | ht
    · rw [ht] at ho
      exact absurd ho (List.not_mem_nil o)
    · rw [ht] at ho
      exact List.mem_singleton.mp ho
  · rw [hrun]
    rfl
  · rw [hrun]
    exact hall

/-- C8 witness: a concrete session of one award operation starts its
storage trace with the single startup read under the fixed key. -/
theorem persistence_whole_map_witness :
    (runQuiz none 8 ["x"] [QuizOp.award "t"]).2.head?
      = some (StorageOp.get "thinkTankTeamData") :=
  (persistence_whole_map none 8 ["x"] [QuizOp.award "t"]).2.2.1

theorem find_cons_matched {α : Type} (p : α → Bool) (a : α) (l : List α)
    (h : p a = true) : List.find? p (a :: l) = some a := by
  simp only [List.find?, h]

theorem find_cons_unmatched {α : Type} (p : α → Bool) (a : α) (l : List α)
    (h : p a = false) : List.find? p (a :: l) = List.find? p l := by
  simp only [List.find?, h]

theorem lookupMap_writeMember_self (t : TeamMap) (k : String) (v m : TeamMember)
    (h : lookupMap t k = some m) : lookupMap (writeMember t k v) k = some v := by
  induction t with
  | nil => simp [lookupMap] at h
  | cons p rest ih =>
    by_cases hp : p.1 = k
    · have h1 : ((if (p.1 == k) = true then (k, v) else p).1 == k) = true := by
        simp [hp]
      simp only [lookupMap, writeMember, List.map_cons]
      rw [find_cons_matched (fun q => q.1 == k)
        (if (p.1 == k) = true then (k, v) else p) _ h1]
      simp [hp]
    · have h0 : (p.1 == k) = false := by simpa using hp
      have h1 : ((if (p.1 == k) = true then (k, v) else p).1 == k) = false := by
        rw [h0]
        simpa using hp
      simp only [lookupMap, writeMember, List.map_cons]
      rw [find_cons_unmatched (fun q => q.1 == k)
        (if (p.1 == k) = true then (k, v) else p) _ h1]
      rw [lookupMap, find_cons_unmatched (fun q => q.1 == k) p _ h0] at h
      exact ih h

theorem lookupMap_writeMember_ne (t : TeamMap) (k k2 : String) (v : TeamMember)
    (h : k2 ≠ k) : lookupMap (writeMember t k v) k2 = lookupMap t k2 := by
  induction t with
  | nil => rfl
  | cons p rest ih =>
    have hg : ((if (p.1 == k) = true then (k, v) else p).1 == k2) = (p.1 == k2) := by
      by_cases hp : p.1 = k
      · have h3 : ((k : String) == k2) = false := by
          simp only [beq_eq_false_iff_ne, ne_eq]
          exact fun e => h e.symm
        have h4 : (p.1 == k2) = false := by
          rw [hp]
          exact h3
        simp [hp, h3, h4]
      · simp [show (p.1 == k) = false by simpa using hp]
    by_cases hpk : p.1 = k2
    · have h2 : (p.1 == k2) = true := by simpa using hpk
      simp only [lookupMap, writeMember, List.map_cons]
      rw [find_cons_matched (fun q => q.1 == k2)
        (if (p.1 == k) = true then (k, v) else p) _ (hg.trans h2),
        find_cons_matched (fun q => q.1 == k2) p _ h2]
      have hp : ¬ p.1 = k := fun e => h (hpk.symm.trans e)
      simp [show (p.1 == k) = false by simpa using hp]
    · have h2 : (p.1 == k2) = false := by simpa using hpk
      simp only [lookupMap, writeMember, List.map_cons]
      rw [find_cons_unmatched (fun q => q.1 == k2)
        (if (p.1 == k) = true then (k, v) else p) _ (hg.trans h2),
        find_cons_unmatched (fun q => q.1 == k2) p _ h2]
      exact ih

/-- C9: award-point guard atomicity — when the current question was
already awarded, or no member is selected, or the selected member is
absent from the team map, `handleAwardPoint` returns the state unchanged
and performs no storage write; otherwise it stores for the chosen member
a record whose `questionsAnswered`, `correctAnswers` and `totalBonus` are
each exactly one larger (with `lastActivity` stamped), leaves every other
member's record unchanged, records the award for the current question,
and writes the whole new map to storage. -/
theorem award_point_guard (now : String) (s : QuizState) :
    (jsTruthy (lookupAward s.awardedForQuestion s.currentQuestion) = true
        ∨ s.awardMember = "" ∨ lookupMap s.teamData s.awardMember = none →
      handleAwardPoint now s = (s, []))
    ∧ ∀ member : TeamMember,
        jsTruthy (lookupAward s.awardedForQuestion s.currentQuestion) = false →
        s.awardMember ≠ "" →
        lookupMap s.teamData s.awardMember = some member →
        lookupMap (handleAwardPoint now s).1.teamData s.awardMember
            = some (TeamMember.mk member.name (member.totalBonus + 1)
                (member.questionsAnswered + 1) (member.correctAnswers + 1) now)
        ∧ (∀ k, k ≠ s.awardMember →
            lookupMap (handleAwardPoint now s).1.teamData k = lookupMap s.teamData k)
        ∧ (handleAwardPoint now s).1.awardedForQuestion
            = writeAward s.awardedForQuestion s.currentQuestion s.awardMember
        ∧ (handleAwardPoint now s).2
            = [StorageOp.set "thinkTankTeamData" (handleAwardPoint now s).1.teamData] := by
  constructor
  · intro hg
    unfold handleAwardPoint
    dsimp only
    split
    · rfl
    next hc1 =>
      split
      · rfl
      next hc2 =>
        split
        · rfl
        next member hm =>
          rcases hg with hg | hg | hg
          · exact absurd hg hc1
          · exact absurd (by simpa using hg) hc2
          · rw [hg] at hm
            exact Option.noConfusion hm
  · intro member h1 h2 h3
    have hb1 : ¬ (jsTruthy (lookupAward s.awardedForQuestion s.currentQuestion) = true) := by
      rw [h1]
      exact Bool.false_ne_true
    have hb2 : ¬ ((s.awardMember == "") = true) := by simpa using h2
    have hstep : handleAwardPoint now s
        = (QuizState.mk s.currentQuestion s.selectedAnswers s.showResults s.showExplanation
            s.awardMember
            (writeAward s.awardedForQuestion s.currentQuestion s.awardMember)
            (writeMember s.teamData s.awardMember
              (TeamMember.mk member.name (member.totalBonus + 1)
                (member.questionsAnswered + 1) (member.correctAnswers + 1) now)),
           [StorageOp.set "thinkTankTeamData"
              (writeMember s.teamData s.awardMember
                (TeamMember.mk member.name (member.totalBonus + 1)
                  (member.questionsAnswered + 1) (member.correctAnswers + 1) now))]) := by
      unfold handleAwardPoint
      dsimp only
      rw [if_neg hb1, if_neg hb2, h3]
    rw [hstep]
    refine ⟨?_, ?_, rfl, rfl⟩
    · exact lookupMap_writeMember_self s.teamData s.awardMember _ member h3
    · intro k hk
      exact lookupMap_writeMember_ne s.teamData s.awardMember k _ hk

/-- C9 witness: in a concrete state with member x selected and nothing
awarded, awarding stores x's record with each counter one larger. -/
theorem award_point_guard_witness :
    lookupMap (handleAwardPoint "t" demoAwardState).1.teamData "x"
      = some (TeamMember.mk "x" (0 + 1) (0 + 1) (0 + 1) "t") :=
  ((award_point_guard "t" demoAwardState).2 (TeamMember.mk "x" 0 0 0 "Never")
    rfl (by decide) (by decide)).1

theorem calculateScoreOn_eq_countP (sel : List (Option Nat)) (qs : List QuizQuestion)
    (h : sel.length ≤ qs.length) :
    calculateScoreOn sel qs = (List.range sel.length).countP
      (fun i => sel.getD i none == some ((qs.getD i (QuizQuestion.mk 0 0)).correctAnswer)) := by
  induction sel generalizing qs with
  | nil => rfl
  | cons a sel ih =>
    cases qs with
    | nil => exact absurd h (by simp)
    | cons q qs =>
      have hlen : sel.length ≤ qs.length := by
        simpa using h
      have hhead : calculateScoreOn (a :: sel) (q :: qs)
          = (if a = some q.correctAnswer then 1 else 0) + calculateScoreOn sel qs := by
        simp [calculateScoreOn, List.zip_cons_cons]
      rw [hhead, ih qs hlen, List.length_cons, List.range_succ_eq_map,
        List.countP_cons, List.countP_map]
      have hp0 : ((a :: sel).getD 0 none
          == some (((q :: qs).getD 0 (QuizQuestion.mk 0 0)).correctAnswer))
          = (a == some q.correctAnswer) := rfl
      have hcomp : ((fun i => (a :: sel).getD i none
            == some (((q :: qs).getD i (QuizQuestion.mk 0 0)).correctAnswer)) ∘ Nat.succ)
          = fun i => sel.getD i none
            == some ((qs.getD i (QuizQuestion.mk 0 0)).correctAnswer) := by
        funext i
        rfl
      rw [hp0, hcomp]
      by_cases ha : a = some q.correctAnswer
      · simp [ha, Nat.add_comm]
      · simp [ha, show (a == some q.correctAnswer) = false by simpa using ha]

/-- C10: score computation bounds — for every answer list no longer than
the question list, `calculateScore` returns exactly the number of indices
at which the selected answer equals that question's correct answer, and in
particular the score is at most the number of quiz questions (it is a
natural number, hence at least 0). -/
theorem calculate_score_count (sel : List (Option Nat))
    (h : sel.length ≤ quizQuestions.length) :
    calculateScore sel = (List.range sel.length).countP
        (fun i => sel.getD i none
          == some ((quizQuestions.getD i (QuizQuestion.mk 0 0)).correctAnswer))
    ∧ calculateScore sel ≤ quizQuestions.length := by
  have he := calculateScoreOn_eq_countP sel quizQuestions h
  refine ⟨he, ?_⟩
  rw [calculateScore, he]
  calc (List.range sel.length).countP _ ≤ (List.range sel.length).length :=
        List.countP_le_length _
    _ = sel.length := List.length_range sel.length
    _ ≤ quizQuestions.length := h

/-- C10 witness: a concrete three-answer list (one correct, one wrong, one
unanswered) scores exactly 1, and the score is at most the 8 questions. -/
theorem calculate_score_count_witness :
    calculateScore [some 1, some 0, none] = 1
    ∧ calculateScore [some 1, some 0, none] ≤ 8 := by
  have hw := calculate_score_count [some 1, some 0, none] (by decide)
  exact ⟨hw.1.trans (by decide), hw.2⟩
